/-
Verification of the fivem-dlss frame-generation mod against its
natural-language specification.

The development shallowly embeds the relevant C++ components:

* `FrameGen.FrameBuffer`       — src/frame_gen/frame_generator.{h,cpp}
  (frame-history ring buffer: PushFrame / GetFrame / GetFrameSRV / Shutdown)
* `FrameGen.FGState`           — src/frame_gen/fsr3_backend.cpp
  (ProcessFrame counters and the ShouldGenerateFrame cadence policy)
* `Cfg`                        — src/utils/config.cpp (ConfigManager Save/Load
  over an INI-style key/value file whose stored values are character lists)
* `Flow`                       — the block-matching optical-flow compute shader
  embedded as a string in src/frame_gen/frame_generator.cpp
* `Interp`                     — the interpolation pixel shader embedded in
  src/frame_gen/fsr3_backend.cpp
* `Upscale`                    — src/upscaler/upscaler_d3d12.cpp GetScaleFactor
* `Api`                        — the public API in src/main.cpp
  (Initialize / IsInitialized / SetBackend / GetBackend / IsBackendSupported)

GPU textures are modelled by their logical content (a `Nat` tag per frame);
IEEE float arithmetic in the shaders and the config file is idealised to
exact rational arithmetic, which is noted at each definition it affects.
-/
import Mathlib

namespace FrameGen

/-- Ring-buffer capacity, `FrameBuffer::MAX_FRAMES = 4`
(src/frame_gen/frame_generator.h). -/
def MAX_FRAMES : Nat := 4

/-- State of `FrameBuffer` (src/frame_gen/frame_generator.h).  A frame's
content is abstracted to a `Nat` tag; a slot holds `none` before any frame
was ever copied into it.  `frameSRVs` mirrors `frames`: each SRV is a fixed
view onto its slot's texture, so its logical content always equals the
slot's content. -/
structure FrameBuffer where
  frames : Nat → Option Nat
  frameSRVs : Nat → Option Nat
  currentIndex : Nat
  frameCount : Nat

/-- Pointwise slot update used to model `CopyResource` into `m_Frames[i]`. -/
def setSlot (f : Nat → Option Nat) (i : Nat) (v : Nat) : Nat → Option Nat :=
  fun j => if j = i then some v else f j

/-- The state after the `FrameBuffer` constructor (all slots empty,
`m_CurrentIndex = 0`, `m_FrameCount = 0`). -/
def FrameBuffer.init : FrameBuffer :=
  { frames := fun _ => none
    frameSRVs := fun _ => none
    currentIndex := 0
    frameCount := 0 }

/-- `FrameBuffer::PushFrame` (src/frame_gen/frame_generator.cpp:96):
advance `m_CurrentIndex` modulo `MAX_FRAMES`, copy the new frame into that
slot, and increment `m_FrameCount` saturating at `MAX_FRAMES`. -/
def FrameBuffer.PushFrame (b : FrameBuffer) (f : Nat) : FrameBuffer :=
  let ci := (b.currentIndex + 1) % MAX_FRAMES
  { frames := setSlot b.frames ci f
    frameSRVs := setSlot b.frameSRVs ci f
    currentIndex := ci
    frameCount := if b.frameCount < MAX_FRAMES then b.frameCount + 1 else b.frameCount }

/-- `FrameBuffer::GetFrame` (src/frame_gen/frame_generator.cpp:108):
`nullptr` for indices at or beyond `m_FrameCount`, otherwise the slot at
`(m_CurrentIndex + MAX_FRAMES - index) % MAX_FRAMES`. -/
def FrameBuffer.GetFrame (b : FrameBuffer) (index : Nat) : Option Nat :=
  if index < b.frameCount then
    b.frames ((b.currentIndex + MAX_FRAMES - index) % MAX_FRAMES)
  else none

/-- `FrameBuffer::GetFrameSRV` (src/frame_gen/frame_generator.cpp:115). -/
def FrameBuffer.GetFrameSRV (b : FrameBuffer) (index : Nat) : Option Nat :=
  if index < b.frameCount then
    b.frameSRVs ((b.currentIndex + MAX_FRAMES - index) % MAX_FRAMES)
  else none

/-- `FrameBuffer::Shutdown` (src/frame_gen/frame_generator.cpp:80):
releases every slot and resets `m_CurrentIndex` and `m_FrameCount`. -/
def FrameBuffer.Shutdown (_ : FrameBuffer) : FrameBuffer :=
  FrameBuffer.init

/-- Pushing a whole list of frames in order. -/
def FrameBuffer.pushList (b : FrameBuffer) (fs : List Nat) : FrameBuffer :=
  fs.foldl FrameBuffer.PushFrame b

theorem FrameBuffer.pushList_append (b : FrameBuffer) (fs : List Nat) (f : Nat) :
    b.pushList (fs ++ [f]) = (b.pushList fs).PushFrame f := by
  simp [FrameBuffer.pushList]

/-- Invariant tying a buffer state to the full history of pushed frames:
the monotone index is the history length mod 4, the count saturates at 4,
and for each valid recency index `i` the slot holding the `(i+1)`-th most
recent frame contains exactly that frame.  Both the texture array and the
SRV array satisfy the content part. -/
def buffInv (fs : List Nat) (b : FrameBuffer) : Prop :=
  b.currentIndex = fs.length % MAX_FRAMES ∧
  b.frameCount = min fs.length MAX_FRAMES ∧
  (∀ i, i < min fs.length MAX_FRAMES →
    b.frames ((fs.length - i) % MAX_FRAMES) = some (fs.getD (fs.length - 1 - i) 0)) ∧
  (∀ i, i < min fs.length MAX_FRAMES →
    b.frameSRVs ((fs.length - i) % MAX_FRAMES) = some (fs.getD (fs.length - 1 - i) 0))

theorem buffInv_init : buffInv [] FrameBuffer.init := by
  refine ⟨rfl, rfl, ?_, ?_⟩ <;> intro i hi <;> simp [MAX_FRAMES] at hi

theorem buffInv_push {fs : List Nat} {b : FrameBuffer} (h : buffInv fs b) (f : Nat) :
    buffInv (fs ++ [f]) (b.PushFrame f) := by
  obtain ⟨hci, hfc, hfr, hsrv⟩ := h
  have hlen : (fs ++ [f]).length = fs.length + 1 := by simp
  refine ⟨?_, ?_, ?_, ?_⟩
  · simp only [FrameBuffer.PushFrame, hlen, hci]
    simp only [MAX_FRAMES]
    omega
  · simp only [FrameBuffer.PushFrame, hlen, hfc]
    simp only [MAX_FRAMES]
    split <;> omega
  · intro i hi
    rw [hlen] at hi ⊢
    rcases i with _ | j
    · have hidx : (fs.length + 1 - 0) % MAX_FRAMES = (b.currentIndex + 1) % MAX_FRAMES := by
        rw [hci]; simp only [MAX_FRAMES]; omega
      simp only [FrameBuffer.PushFrame, hidx, setSlot, if_pos rfl]
      have : fs.length + 1 - 1 - 0 = fs.length := by omega
      rw [this]
      simp
    · have hj1 : j < fs.length := by simp only [MAX_FRAMES] at hi ⊢; omega
      have hj2 : j < min fs.length MAX_FRAMES := by simp only [MAX_FRAMES] at hi ⊢; omega
      have hsub : fs.length + 1 - (j + 1) = fs.length - j := by omega
      have hne : (fs.length - j) % MAX_FRAMES ≠ (b.currentIndex + 1) % MAX_FRAMES := by
        rw [hci]; simp only [MAX_FRAMES] at hi ⊢; omega
      simp only [FrameBuffer.PushFrame, hsub, setSlot, if_neg hne]
      have hidx2 : fs.length + 1 - 1 - (j + 1) = fs.length - 1 - j := by omega
      rw [hidx2]
      have hlt : fs.length - 1 - j < fs.length := by omega
      rw [List.getD_append _ _ _ _ hlt]
      exact hfr j hj2
  · intro i hi
    rw [hlen] at hi ⊢
    rcases i with _ | j
    · have hidx : (fs.length + 1 - 0) % MAX_FRAMES = (b.currentIndex + 1) % MAX_FRAMES := by
        rw [hci]; simp only [MAX_FRAMES]; omega
      simp only [FrameBuffer.PushFrame, hidx, setSlot, if_pos rfl]
      have : fs.length + 1 - 1 - 0 = fs.length := by omega
      rw [this]
      simp
    · have hj1 : j < fs.length := by simp only [MAX_FRAMES] at hi ⊢; omega
      have hj2 : j < min fs.length MAX_FRAMES := by simp only [MAX_FRAMES] at hi ⊢; omega
      have hsub : fs.length + 1 - (j + 1) = fs.length - j := by omega
      have hne : (fs.length - j) % MAX_FRAMES ≠ (b.currentIndex + 1) % MAX_FRAMES := by
        rw [hci]; simp only [MAX_FRAMES] at hi ⊢; omega
      simp only [FrameBuffer.PushFrame, hsub, setSlot, if_neg hne]
      have hidx2 : fs.length + 1 - 1 - (j + 1) = fs.length - 1 - j := by omega
      rw [hidx2]
      have hlt : fs.length - 1 - j < fs.length := by omega
      rw [List.getD_append _ _ _ _ hlt]
      exact hsrv j hj2

theorem buffInv_pushList (fs : List Nat) :
    buffInv fs (FrameBuffer.init.pushList fs) := by
  induction fs using List.reverseRecOn with
  | nil => exact buffInv_init
  | append_singleton fs f ih =>
      rw [FrameBuffer.pushList_append]
      exact buffInv_push ih f

/-- **C1.** Starting from a freshly initialized `FrameBuffer`, after pushing
frames `F1..Fm` in order, `GetFrame i` returns the `(i+1)`-th most recently
pushed frame for every `i < min m MAX_FRAMES`: in particular for `m ≤ 4`,
`GetFrame 0 = Fm` and `GetFrame (m-1) = F1`, and each push beyond capacity
evicts only the oldest stored frame, the 4 most recent remaining
retrievable in recency order. -/
theorem claim_C1_ring_buffer_recency (fs : List Nat) (i : Nat)
    (hi : i < min fs.length MAX_FRAMES) :
    (FrameBuffer.init.pushList fs).GetFrame i = some (fs.getD (fs.length - 1 - i) 0) := by
  obtain ⟨hci, hfc, hfr, -⟩ := buffInv_pushList fs
  have hguard : i < (FrameBuffer.init.pushList fs).frameCount := by rw [hfc]; exact hi
  have hidx : ((FrameBuffer.init.pushList fs).currentIndex + MAX_FRAMES - i) % MAX_FRAMES
      = (fs.length - i) % MAX_FRAMES := by
    rw [hci]; simp only [MAX_FRAMES] at hi ⊢; omega
  rw [FrameBuffer.GetFrame, if_pos hguard, hidx]
  exact hfr i hi

/-- Witness for C1: pushing five frames into the 4-slot ring, the second
most recent (`GetFrame 1`) is the fourth pushed frame. -/
theorem claim_C1_ring_buffer_recency_witness :
    (FrameBuffer.init.pushList [10, 20, 30, 40, 50]).GetFrame 1 = some 40 := by
  have h := claim_C1_ring_buffer_recency [10, 20, 30, 40, 50] 1 (by decide)
  simpa using h

/-- Buffer states reachable through the `FrameBuffer` lifecycle: the freshly
constructed buffer, any sequence of pushes, and `Shutdown` (which resets the
index and the count). -/
inductive ReachableFB : FrameBuffer → Prop
  | init : ReachableFB FrameBuffer.init
  | push {b : FrameBuffer} (f : Nat) : ReachableFB b → ReachableFB (b.PushFrame f)
  | shutdown {b : FrameBuffer} : ReachableFB b → ReachableFB b.Shutdown

/-- **C9.** The ring buffer never yields a slot that has not yet been
filled: in every reachable buffer state (in fact the guard makes this hold
before the ring has filled and after `Shutdown` resets the count), for every
index at or beyond the current available-frame count both `GetFrame` and
`GetFrameSRV` return null. -/
theorem claim_C9_no_unfilled_slot_read (b : FrameBuffer) (hb : ReachableFB b)
    (i : Nat) (hi : b.frameCount ≤ i) :
    b.GetFrame i = none ∧ b.GetFrameSRV i = none := by
  have hlt : ¬ i < b.frameCount := by omega
  exact ⟨by rw [FrameBuffer.GetFrame, if_neg hlt], by rw [FrameBuffer.GetFrameSRV, if_neg hlt]⟩

/-- Witness for C9: after a single push, index 1 is not yet filled and both
accessors return null. -/
theorem claim_C9_no_unfilled_slot_read_witness :
    (FrameBuffer.init.PushFrame 7).GetFrame 1 = none ∧
      (FrameBuffer.init.PushFrame 7).GetFrameSRV 1 = none :=
  claim_C9_no_unfilled_slot_read (FrameBuffer.init.PushFrame 7)
    (ReachableFB.push 7 ReachableFB.init) 1 (by decide)

/-- Counter state of `FSR3FrameGenerator` (src/frame_gen/fsr3_backend.h):
`m_TotalFrames`, `m_FramesGenerated`, and the history count
`m_FrameBuffer->GetFrameCount()`.  The GPU side of `ProcessFrame` (back
buffer capture and the interpolation draw, which always succeed once the
backend is initialized) is abstracted away; only the counter flow of
src/frame_gen/fsr3_backend.cpp:299-334 is retained. -/
structure FGState where
  totalFrames : Nat
  framesGenerated : Nat
  frameCount : Nat
  deriving DecidableEq

/-- `FSR3FrameGenerator::ShouldGenerateFrame`
(src/frame_gen/fsr3_backend.cpp:443): generate on every other real frame,
`(m_TotalFrames % 2) == 1`. -/
def ShouldGenerateFrame (s : FGState) : Bool :=
  s.totalFrames % 2 == 1

/-- One `ProcessFrame` cycle (src/frame_gen/fsr3_backend.cpp:299): capture
the back buffer into the history ring (saturating count increment, as in
`FrameBuffer::PushFrame`); if fewer than 2 history frames are then
available, return without touching the counters; otherwise generate an
interpolated frame exactly when `ShouldGenerateFrame()` holds, then count
the real frame. -/
def processFrame (s : FGState) : FGState :=
  let fc := if s.frameCount < MAX_FRAMES then s.frameCount + 1 else s.frameCount
  if fc < 2 then
    { s with frameCount := fc }
  else
    { totalFrames := s.totalFrames + 1
      framesGenerated :=
        if ShouldGenerateFrame s then s.framesGenerated + 1 else s.framesGenerated
      frameCount := fc }

theorem processFrame_of_one_le {s : FGState} (h : 1 ≤ s.frameCount) :
    processFrame s =
      { totalFrames := s.totalFrames + 1
        framesGenerated :=
          if s.totalFrames % 2 == 1 then s.framesGenerated + 1 else s.framesGenerated
        frameCount := if s.frameCount < MAX_FRAMES then s.frameCount + 1 else s.frameCount } := by
  have hfc : ¬ (if s.frameCount < MAX_FRAMES then s.frameCount + 1 else s.frameCount) < 2 := by
    simp only [MAX_FRAMES]; split <;> omega
  rw [processFrame]
  simp only [hfc, if_false, ShouldGenerateFrame]

theorem processFrame_frameCount_le {s : FGState} (h : 1 ≤ s.frameCount) :
    1 ≤ (processFrame s).frameCount := by
  rw [processFrame_of_one_le h]
  simp only [MAX_FRAMES]
  split <;> omega

theorem processFrame_two_cycles {s : FGState} (h : 1 ≤ s.frameCount) :
    (processFrame (processFrame s)).framesGenerated = s.framesGenerated + 1 ∧
      1 ≤ (processFrame (processFrame s)).frameCount := by
  have h1 := processFrame_of_one_le h
  have h2 := processFrame_of_one_le (processFrame_frameCount_le h)
  constructor
  · rw [h2, h1]
    rcases Nat.even_or_odd s.totalFrames with he | ho
    · have hm : s.totalFrames % 2 = 0 := Nat.even_iff.mp he
      have hm1 : (s.totalFrames + 1) % 2 = 1 := by omega
      simp [hm, hm1]
    · have hm : s.totalFrames % 2 = 1 := Nat.odd_iff.mp ho
      have hm1 : (s.totalFrames + 1) % 2 = 0 := by omega
      simp [hm, hm1]
  · exact processFrame_frameCount_le (processFrame_frameCount_le h)

/-- **C2.** Generation cadence: for every `n ≥ 1`, across any `2n`
consecutive `ProcessFrame` cycles during which at least 2 history frames
are available throughout (equivalently, at least 1 history frame is present
before each capture), the alternating policy triggers exactly `n` synthesis
cycles: the generated-frame counter rises by exactly `n`, i.e. at most one
generated frame per real frame. -/
theorem claim_C2_generation_cadence (s : FGState) (n : Nat)
    (hs : 1 ≤ s.frameCount) (hn : 1 ≤ n) :
    (processFrame^[2 * n] s).framesGenerated = s.framesGenerated + n := by
  clear hn
  induction n generalizing s with
  | zero => simp
  | succ m ih =>
      have hstep := processFrame_two_cycles hs
      have h2 : 2 * (m + 1) = 2 * m + 2 := by omega
      rw [h2, Function.iterate_add_apply]
      have hpp : processFrame^[2] s = processFrame (processFrame s) := by
        simp [Function.iterate_succ_apply]
      rw [hpp, ih _ hstep.2, hstep.1]
      omega

/-- Witness for C2: starting with one history frame and fresh counters,
two cycles generate exactly one frame. -/
theorem claim_C2_generation_cadence_witness :
    (processFrame^[2 * 1] ⟨0, 0, 1⟩).framesGenerated = 0 + 1 := by
  have h := claim_C2_generation_cadence ⟨0, 0, 1⟩ 1 (by decide) (by decide)
  simpa using h

end FrameGen

namespace Upscale

/-- `Upscaler::QualityMode` (src/upscaler/upscaler_d3d12.h), in source
declaration order. -/
inductive QualityMode
  | Quality
  | Balanced
  | Performance
  deriving DecidableEq

/-- State of `D3D12Upscaler` relevant to `GetScaleFactor`: the display
resolution and other bookkeeping are carried to express that the scale
factor ignores them. -/
structure UpscalerState where
  displayWidth : Nat
  displayHeight : Nat
  quality : QualityMode
  initialized : Bool
  deriving DecidableEq

/-- `D3D12Upscaler::GetScaleFactor` (src/upscaler/upscaler_d3d12.cpp:101).
The float literals `0.666667f`, `0.588235f`, `0.5f` are idealised to the
exact decimal rationals; the `default` arm returning `1.0f` is unreachable
because the scoped enum has exactly the three listed values. -/
def GetScaleFactor (s : UpscalerState) : ℚ :=
  match s.quality with
  | QualityMode.Quality => 666667 / 1000000
  | QualityMode.Balanced => 588235 / 1000000
  | QualityMode.Performance => 5 / 10

/-- **C6.** `GetScaleFactor` returns a fixed constant per quality preset,
independent of display resolution and of any other state: Performance
returns 0.5, Balanced returns approximately 0.588, Quality returns
approximately 0.667 (within 1/1000 of those decimals). -/
theorem claim_C6_scale_factor_constant :
    (∀ w h b w2 h2 b2 q, GetScaleFactor ⟨w, h, q, b⟩ = GetScaleFactor ⟨w2, h2, q, b2⟩) ∧
    (∀ w h b, GetScaleFactor ⟨w, h, QualityMode.Performance, b⟩ = 1 / 2) ∧
    (∀ w h b, |GetScaleFactor ⟨w, h, QualityMode.Balanced, b⟩ - 588 / 1000| < 1 / 1000) ∧
    (∀ w h b, |GetScaleFactor ⟨w, h, QualityMode.Quality, b⟩ - 667 / 1000| < 1 / 1000) := by
  refine ⟨?_, ?_, ?_, ?_⟩
  · intro w h b w2 h2 b2 q
    cases q <;> rfl
  · intro w h b
    norm_num [GetScaleFactor]
  · intro w h b
    rw [GetScaleFactor, abs_lt]
    constructor <;> norm_num
  · intro w h b
    rw [GetScaleFactor, abs_lt]
    constructor <;> norm_num

end Upscale

namespace Api

/-- `FiveMFrameGen::Backend` (include/fivem_framegen.h), underlying values
0 to 3 in declaration order. -/
inductive Backend
  | None
  | FSR3
  | DLSS3
  | OpticalFlow
  deriving DecidableEq

/-- `DXGI_ADAPTER_DESC` fields consulted by the DLSS3 capability probe. -/
structure AdapterDesc where
  vendorId : Nat
  deviceId : Nat
  deriving DecidableEq

/-- Global state of src/main.cpp relevant to the public API:
`g_Initialized`, the configured backend and enabled flag of
`g_FrameGenConfig`, the adapter of the captured device (`none` when
`g_Hooks` is absent or no device was captured), and the backend of the
live `g_FrameGenerator` (`none` when no generator exists). -/
structure ApiState where
  initialized : Bool
  configBackend : Backend
  configEnabled : Bool
  device : Option AdapterDesc
  generator : Option Backend
  deriving DecidableEq

/-- `FrameGen::CreateFrameGenerator` (src/frame_gen/frame_generator.cpp:375):
every non-`None` backend currently produces the FSR3 implementation. -/
def createFrameGen (b : Backend) : Option Backend :=
  match b with
  | Backend.None => none
  | _ => some Backend.FSR3

/-- `FiveMFrameGen::IsBackendSupported` (src/main.cpp:768): `None`, `FSR3`
and `OpticalFlow` are always supported; `DLSS3` requires a captured device
whose adapter is NVIDIA (vendor id 0x10DE) with a device id in the RTX 40
range `[0x2700, 0x2800)`. -/
def IsBackendSupported (st : ApiState) (b : Backend) : Bool :=
  match b with
  | Backend.None => true
  | Backend.FSR3 => true
  | Backend.DLSS3 =>
    match st.device with
    | some d => (d.vendorId == 0x10DE) && (0x2700 ≤ d.deviceId && d.deviceId < 0x2800)
    | none => false
  | Backend.OpticalFlow => true

/-- `FiveMFrameGen::Initialize` (src/main.cpp:681): initialization is
driven by process attach; the call ignores its arguments and just reports
the current state.  Handles are abstracted to numeric identifiers. -/
def Initialize (st : ApiState) (_device _context _swapChain : Nat) : Bool × ApiState :=
  (st.initialized, st)

/-- `FiveMFrameGen::IsInitialized` (src/main.cpp:695). -/
def IsInitialized (st : ApiState) : Bool :=
  st.initialized

/-- `FiveMFrameGen::SetBackend` (src/main.cpp:707): reject unsupported
backends without touching any state; otherwise record the backend and,
when hooks are live and initialized, recreate the frame generator. -/
def SetBackend (st : ApiState) (b : Backend) : Bool × ApiState :=
  if IsBackendSupported st b then
    (true,
      { st with
        configBackend := b
        generator := if st.initialized then createFrameGen b else st.generator })
  else
    (false, st)

/-- `FiveMFrameGen::GetBackend` (src/main.cpp:729). -/
def GetBackend (st : ApiState) : Backend :=
  st.configBackend

/-- **C7.** `IsBackendSupported` for DLSS3 returns true exactly when a
device has been captured, its vendor id is NVIDIA's 0x10DE, and its device
id lies in the supported generation range `[0x2700, 0x2800)`; in
particular it is false on every non-NVIDIA GPU and false when no device
has been captured. -/
theorem claim_C7_dlss3_support_probe (st : ApiState) :
    IsBackendSupported st Backend.DLSS3 = true ↔
      ∃ d, st.device = some d ∧ d.vendorId = 0x10DE ∧
        0x2700 ≤ d.deviceId ∧ d.deviceId < 0x2800 := by
  rcases hdev : st.device with _ | d
  · simp [IsBackendSupported, hdev]
  · simp [IsBackendSupported, hdev, Nat.beq_eq, and_assoc]

/-- **C8.** The public `Initialize(device, context, swapChain)` API is a
no-op returning the current initialization state: for every combination of
argument values it leaves the state unchanged, returns exactly the value
`IsInitialized()` returns, and its result does not depend on the supplied
handles. -/
theorem claim_C8_initialize_noop (st : ApiState) (d c s d2 c2 s2 : Nat) :
    (Initialize st d c s).2 = st ∧
      (Initialize st d c s).1 = IsInitialized st ∧
      (Initialize st d c s).1 = (Initialize st d2 c2 s2).1 :=
  ⟨rfl, rfl, rfl⟩

/-- **C10.** `SetBackend` is atomic on failure: it returns true exactly
when the backend is supported, a subsequent `GetBackend` reports the new
backend precisely in that case and the old one otherwise, and on failure
the entire state is left unchanged. -/
theorem claim_C10_set_backend_atomic (st : ApiState) (b : Backend) :
    ((SetBackend st b).1 = IsBackendSupported st b) ∧
      (GetBackend (SetBackend st b).2 =
        if IsBackendSupported st b then b else GetBackend st) ∧
      ((SetBackend st b).1 = false → (SetBackend st b).2 = st) := by
  refine ⟨?_, ?_, ?_⟩
  · rw [SetBackend]; split <;> simp_all
  · rw [SetBackend]; split <;> simp_all [GetBackend]
  · intro hfail
    by_cases hsupp : IsBackendSupported st b = true
    · rw [SetBackend, if_pos hsupp] at hfail
      exact absurd hfail (by simp)
    · rw [SetBackend, if_neg hsupp]

/-- Witness for C10: with no captured device, DLSS3 is unsupported and
`SetBackend` fails leaving the state untouched. -/
theorem claim_C10_set_backend_atomic_witness :
    (SetBackend ⟨false, Backend.FSR3, false, none, none⟩ Backend.DLSS3).1 = false ∧
      (SetBackend ⟨false, Backend.FSR3, false, none, none⟩ Backend.DLSS3).2 =
        ⟨false, Backend.FSR3, false, none, none⟩ :=
  ⟨by decide,
    (claim_C10_set_backend_atomic ⟨false, Backend.FSR3, false, none, none⟩
      Backend.DLSS3).2.2 (by decide)⟩

end Api

namespace Flow

/-- `Luminance` in the optical-flow compute shader
(src/frame_gen/frame_generator.cpp:144): perceptual weighting
`dot(rgb, (0.299, 0.587, 0.114))`, idealised to exact rationals. -/
def Luminance (c : ℚ × ℚ × ℚ) : ℚ :=
  299 / 1000 * c.1 + 587 / 1000 * c.2.1 + 114 / 1000 * c.2.2

/-- An HLSL `Texture2D` load: out-of-bounds loads return zero. -/
def readTex (w h : ℤ) (f : ℤ × ℤ → ℚ × ℚ × ℚ) (p : ℤ × ℤ) : ℚ × ℚ × ℚ :=
  if 0 ≤ p.1 ∧ p.1 < w ∧ 0 ≤ p.2 ∧ p.2 < h then f p else (0, 0, 0)

/-- One pixel's contribution to `SAD`
(src/frame_gen/frame_generator.cpp:149): the previous frame is loaded at
`pos + (x,y)`, the current frame at that position plus the candidate
offset, and the term counts only when the offset position is inside the
resolution. -/
def sadTerm (w h : ℤ) (prev curr : ℤ × ℤ → ℚ × ℚ × ℚ)
    (pos offset : ℤ × ℤ) (x y : ℕ) : ℚ :=
  let prevPos : ℤ × ℤ := (pos.1 + x, pos.2 + y)
  let currPos : ℤ × ℤ := (prevPos.1 + offset.1, prevPos.2 + offset.2)
  if 0 ≤ currPos.1 ∧ currPos.1 < w ∧ 0 ≤ currPos.2 ∧ currPos.2 < h then
    |Luminance (readTex w h prev prevPos) - Luminance (readTex w h curr currPos)|
  else 0

/-- `SAD(pos, offset)` over the 8×8 block
(src/frame_gen/frame_generator.cpp:149-169). -/
def SAD (w h : ℤ) (prev curr : ℤ × ℤ → ℚ × ℚ × ℚ) (pos offset : ℤ × ℤ) : ℚ :=
  ∑ y ∈ Finset.range 8, ∑ x ∈ Finset.range 8, sadTerm w h prev curr pos offset x y

theorem sadTerm_nonneg (w h : ℤ) (prev curr : ℤ × ℤ → ℚ × ℚ × ℚ)
    (pos offset : ℤ × ℤ) (x y : ℕ) : 0 ≤ sadTerm w h prev curr pos offset x y := by
  rw [sadTerm]
  split
  · exact abs_nonneg _
  · exact le_refl 0

theorem SAD_nonneg (w h : ℤ) (prev curr : ℤ × ℤ → ℚ × ℚ × ℚ)
    (pos offset : ℤ × ℤ) : 0 ≤ SAD w h prev curr pos offset :=
  Finset.sum_nonneg fun _ _ => Finset.sum_nonneg fun _ _ => sadTerm_nonneg _ _ _ _ _ _ _ _

theorem sadTerm_self (w h : ℤ) (f : ℤ × ℤ → ℚ × ℚ × ℚ) (pos : ℤ × ℤ) (x y : ℕ) :
    sadTerm w h f f pos (0, 0) x y = 0 := by
  rw [sadTerm]
  simp

theorem SAD_self (w h : ℤ) (f : ℤ × ℤ → ℚ × ℚ × ℚ) (pos : ℤ × ℤ) :
    SAD w h f f pos (0, 0) = 0 :=
  Finset.sum_eq_zero fun _ _ => Finset.sum_eq_zero fun _ _ => sadTerm_self _ _ _ _ _ _

/-- Candidate offsets in the shader's scan order
(src/frame_gen/frame_generator.cpp:185-186): `dy` outer from `-sr` to `sr`,
`dx` inner from `-sr` to `sr`. -/
def candidateOffsets (sr : ℕ) : List (ℤ × ℤ) :=
  (List.range (2 * sr + 1)).flatMap fun dy =>
    (List.range (2 * sr + 1)).map fun dx => ((dx : ℤ) - sr, (dy : ℤ) - sr)

/-- One step of the best-match search
(src/frame_gen/frame_generator.cpp:187-193): a candidate replaces the
running best only on strict improvement of its SAD. -/
def searchStep (score : ℤ × ℤ → ℚ) (acc : ℚ × (ℤ × ℤ)) (off : ℤ × ℤ) : ℚ × (ℤ × ℤ) :=
  if score off < acc.1 then (score off, off) else acc

/-- The full search: `bestSAD` starts at the sentinel `1e10` and
`bestOffset` at `(0,0)`. -/
def bestMatch (score : ℤ × ℤ → ℚ) (offs : List (ℤ × ℤ)) : ℚ × (ℤ × ℤ) :=
  offs.foldl (searchStep score) (10000000000, (0, 0))

/-- The motion vector the shader stores for an in-range block
(src/frame_gen/frame_generator.cpp:171-199): the best offset normalized by
the resolution. -/
def motionVecAt (w h : ℤ) (prev curr : ℤ × ℤ → ℚ × ℚ × ℚ) (sr : ℕ)
    (blockId : ℤ × ℤ) : ℚ × ℚ :=
  let blockPos : ℤ × ℤ := (blockId.1 * 8, blockId.2 * 8)
  let best := bestMatch (SAD w h prev curr blockPos) (candidateOffsets sr)
  ((best.2.1 : ℚ) / (w : ℚ), (best.2.2 : ℚ) / (h : ℚ))

theorem foldl_searchStep_no_update (score : ℤ × ℤ → ℚ) (l : List (ℤ × ℤ))
    (acc : ℚ × (ℤ × ℤ)) (hzero : acc.1 = 0) (hnn : ∀ o ∈ l, 0 ≤ score o) :
    l.foldl (searchStep score) acc = acc := by
  induction l with
  | nil => rfl
  | cons o rest ih =>
      have hno : ¬ score o < acc.1 := by
        rw [hzero]; exact not_lt.mpr (hnn o (List.mem_cons_self o rest))
      rw [List.foldl_cons, searchStep, if_neg hno]
      exact ih fun o ho => hnn o (List.mem_cons_of_mem _ ho)

theorem foldl_searchStep_first_zero (score : ℤ × ℤ → ℚ) (l : List (ℤ × ℤ))
    (z : ℤ × ℤ) :
    ∀ acc : ℚ × (ℤ × ℤ), 0 < acc.1 → (∀ o ∈ l, 0 ≤ score o) →
      l.find? (fun o => decide (score o = 0)) = some z →
      (l.foldl (searchStep score) acc).2 = z := by
  induction l with
  | nil => intro acc hacc hnn hfind; simp at hfind
  | cons o rest ih =>
      intro acc hacc hnn hfind
      by_cases hz : score o = 0
      · have hzo : z = o := by
          rw [List.find?_cons_of_pos _ (by simpa using hz)] at hfind
          exact (Option.some_inj.mp hfind).symm
        have hupd : score o < acc.1 := by rw [hz]; exact hacc
        rw [List.foldl_cons, searchStep, if_pos hupd]
        rw [foldl_searchStep_no_update score rest (score o, o) (by simpa using hz)
          fun o ho => hnn o (List.mem_cons_of_mem _ ho)]
        exact hzo ▸ rfl
      · have hfind2 : rest.find? (fun o => decide (score o = 0)) = some z := by
          rw [List.find?_cons_of_neg _ (by simpa using hz)] at hfind
          exact hfind
        have hpos : 0 < score o :=
          lt_of_le_of_ne (hnn o (List.mem_cons_self o rest)) (Ne.symm hz)
        rw [List.foldl_cons, searchStep]
        split
        · exact ih _ (by simpa using hpos) (fun o ho => hnn o (List.mem_cons_of_mem _ ho)) hfind2
        · exact ih _ hacc (fun o ho => hnn o (List.mem_cons_of_mem _ ho)) hfind2

theorem bestMatch_first_zero (w h : ℤ) (f : ℤ × ℤ → ℚ × ℚ × ℚ) (sr : ℕ)
    (pos z : ℤ × ℤ)
    (hz : (candidateOffsets sr).find?
      (fun o => decide (SAD w h f f pos o = 0)) = some z) :
    (bestMatch (SAD w h f f pos) (candidateOffsets sr)).2 = z :=
  foldl_searchStep_first_zero _ _ _ _ (by norm_num)
    (fun o _ => SAD_nonneg _ _ _ _ _ _) hz

theorem motionVecAt_first_zero (w h : ℤ) (f : ℤ × ℤ → ℚ × ℚ × ℚ) (sr : ℕ)
    (blockId z : ℤ × ℤ)
    (hz : (candidateOffsets sr).find?
      (fun o => decide (SAD w h f f (blockId.1 * 8, blockId.2 * 8) o = 0)) = some z) :
    motionVecAt w h f f sr blockId = ((z.1 : ℚ) / (w : ℚ), (z.2 : ℚ) / (h : ℚ)) := by
  have hbest := bestMatch_first_zero w h f sr (blockId.1 * 8, blockId.2 * 8) z hz
  simp only [motionVecAt]
  rw [hbest]

/-- **C4 (amended).** For every pair of identical input frames and every
block, the zero displacement attains SAD 0, and the block-matching search
returns the *first candidate in scan order whose SAD is zero* (strict
improvement keeps earlier ties), normalized by the resolution.  The output
vector is `(0,0)` only when no earlier-scanned candidate also has SAD 0. -/
theorem claim_C4_first_zero_sad_offset (w h : ℤ) (f : ℤ × ℤ → ℚ × ℚ × ℚ)
    (sr : ℕ) (blockId : ℤ × ℤ) (z : ℤ × ℤ)
    (hz : (candidateOffsets sr).find?
      (fun o => decide (SAD w h f f (blockId.1 * 8, blockId.2 * 8) o = 0)) = some z) :
    SAD w h f f (blockId.1 * 8, blockId.2 * 8) (0, 0) = 0 ∧
      motionVecAt w h f f sr blockId = ((z.1 : ℚ) / (w : ℚ), (z.2 : ℚ) / (h : ℚ)) :=
  ⟨SAD_self _ _ _ _, motionVecAt_first_zero w h f sr blockId z hz⟩

/-- The all-black test frame used for the counterexample and the witness. -/
def blackFrame : ℤ × ℤ → ℚ × ℚ × ℚ := fun _ => (0, 0, 0)

theorem readTex_black (w h : ℤ) (p : ℤ × ℤ) : readTex w h blackFrame p = (0, 0, 0) := by
  rw [readTex]
  split <;> rfl

theorem sadTerm_black (w h : ℤ) (pos off : ℤ × ℤ) (x y : ℕ) :
    sadTerm w h blackFrame blackFrame pos off x y = 0 := by
  simp [sadTerm, readTex_black, Luminance]

theorem SAD_black (w h : ℤ) (pos off : ℤ × ℤ) :
    SAD w h blackFrame blackFrame pos off = 0 :=
  Finset.sum_eq_zero fun _ _ => Finset.sum_eq_zero fun _ _ => sadTerm_black _ _ _ _ _ _

theorem find?_offsets_black :
    (candidateOffsets 1).find?
      (fun o => decide (SAD 8 8 blackFrame blackFrame (((0 : ℤ), (0 : ℤ)).1 * 8,
        ((0 : ℤ), (0 : ℤ)).2 * 8) o = 0)) = some (-1, -1) := by
  have hco : candidateOffsets 1 =
      ([(-1, -1), (0, -1), (1, -1), (-1, 0), (0, 0), (1, 0), (-1, 1), (0, 1), (1, 1)] :
        List (ℤ × ℤ)) := by decide
  rw [hco, List.find?_cons_of_pos]
  simp [SAD_black]

/-- **C4 counterexample.** The claim as stated is false: on an 8×8
resolution with search radius 1, two identical all-black frames make every
candidate's SAD zero, so the first-scanned candidate `(-1,-1)` is kept and
block `(0,0)` — which is inside the resolution — receives the nonzero
motion vector `(-1/8, -1/8)`. -/
theorem claim_C4_counterexample :
    ((0 : ℤ) * 8 < 8 ∧ (0 : ℤ) * 8 < 8) ∧
      motionVecAt 8 8 blackFrame blackFrame 1 (0, 0) = (-1 / 8, -1 / 8) ∧
      motionVecAt 8 8 blackFrame blackFrame 1 (0, 0) ≠ (0, 0) := by
  have h := motionVecAt_first_zero 8 8 blackFrame 1 (0, 0) (-1, -1) find?_offsets_black
  refine ⟨by norm_num, ?_, ?_⟩
  · rw [h]
    simp only [Prod.mk.injEq]
    norm_num
  · rw [h]
    intro hcontra
    have h1 := congrArg Prod.fst hcontra
    norm_num at h1

/-- Witness for the amended C4 theorem at the same concrete instance. -/
theorem claim_C4_first_zero_sad_offset_witness :
    motionVecAt 8 8 blackFrame blackFrame 1 (0, 0) = (-1 / 8, -1 / 8) := by
  have h := claim_C4_first_zero_sad_offset 8 8 blackFrame 1 (0, 0) (-1, -1)
    find?_offsets_black
  rw [h.2]
  simp only [Prod.mk.injEq]
  norm_num

end Flow

namespace Interp

/-- An HLSL `float4` colour, components indexed by `Fin 4`; arithmetic is
idealised to exact rationals. -/
def Col : Type := Fin 4 → ℚ

/-- HLSL `lerp(x, y, s) = x + s * (y - x)`, componentwise. -/
def lerp (x y : Col) (s : ℚ) : Col :=
  fun i => x i + s * (y i - x i)

/-- HLSL `saturate`: clamp each component into `[0, 1]`. -/
def saturate (c : Col) : Col :=
  fun i => min 1 (max 0 (c i))

/-- The 4-tap cross blur of the sharpening pass in `g_InterpolationPS`
(src/frame_gen/fsr3_backend.cpp:74-80): the current frame sampled at
`±texelSize` in each axis, averaged. -/
def crossBlur (frameCurr : ℚ × ℚ → Col) (texelSize uv : ℚ × ℚ) : Col :=
  fun i =>
    (frameCurr (uv.1 - texelSize.1, uv.2) i + frameCurr (uv.1 + texelSize.1, uv.2) i +
      frameCurr (uv.1, uv.2 - texelSize.2) i + frameCurr (uv.1, uv.2 + texelSize.2) i) * (1 / 4)

/-- The interpolation pixel shader `g_InterpolationPS`
(src/frame_gen/fsr3_backend.cpp:40-87) at one output pixel.  Textures are
modelled as functions from the sample position to the sampled colour (the
linear-filter lookup is part of that function); `motionVectors` likewise
yields the sampled motion at the pixel's texcoord. -/
def interpolationPS (framePrev frameCurr : ℚ × ℚ → Col)
    (motionVectors : ℚ × ℚ → ℚ × ℚ) (interpolationFactor sharpness : ℚ)
    (texelSize : ℚ × ℚ) (texcoord : ℚ × ℚ) : Col :=
  let motion := motionVectors texcoord
  let prevUV : ℚ × ℚ := (texcoord.1 - motion.1 * (1 - interpolationFactor),
    texcoord.2 - motion.2 * (1 - interpolationFactor))
  let currUV : ℚ × ℚ := (texcoord.1 + motion.1 * interpolationFactor,
    texcoord.2 + motion.2 * interpolationFactor)
  let prevColor := framePrev prevUV
  let currColor := frameCurr currUV
  let color := lerp prevColor currColor interpolationFactor
  let color2 : Col :=
    if 0 < sharpness then
      fun i => color i + (color i - crossBlur frameCurr texelSize texcoord i) * sharpness
    else color
  saturate color2

/-- **C5.** For every pair of input frames whose sampled colours lie in the
normalized range `[0,1]` (as swap-chain colour data does), interpolation
with an all-zero motion field, factor `1/2` and sharpness `0` produces at
every output pixel exactly the 50/50 cross-fade of the two input frames at
that pixel, both sample positions degenerating to the pixel's own
coordinate. -/
theorem claim_C5_zero_motion_cross_fade (framePrev frameCurr : ℚ × ℚ → Col)
    (motionVectors : ℚ × ℚ → ℚ × ℚ) (texelSize uv : ℚ × ℚ)
    (hmv : motionVectors uv = (0, 0))
    (hprev : ∀ i, 0 ≤ framePrev uv i ∧ framePrev uv i ≤ 1)
    (hcurr : ∀ i, 0 ≤ frameCurr uv i ∧ frameCurr uv i ≤ 1) :
    interpolationPS framePrev frameCurr motionVectors (1 / 2) 0 texelSize uv =
      fun i => (framePrev uv i + frameCurr uv i) / 2 := by
  funext i
  simp only [interpolationPS, hmv, saturate, lerp]
  norm_num
  simp only [lerp]
  have havg : framePrev uv i + 1 / 2 * (frameCurr uv i - framePrev uv i) =
      (framePrev uv i + frameCurr uv i) / 2 := by ring
  rw [havg]
  have h0 : 0 ≤ (framePrev uv i + frameCurr uv i) / 2 := by
    have := (hprev i).1
    have := (hcurr i).1
    linarith
  have h1 : (framePrev uv i + frameCurr uv i) / 2 ≤ 1 := by
    have := (hprev i).2
    have := (hcurr i).2
    linarith
  rw [max_eq_right h0, min_eq_right h1]

/-- Witness for C5 at constant frames of value 1/4 and 3/4: the output
pixel is exactly 1/2. -/
theorem claim_C5_zero_motion_cross_fade_witness :
    interpolationPS (fun _ _ => 1 / 4) (fun _ _ => 3 / 4) (fun _ => (0, 0)) (1 / 2) 0
      (1 / 100, 1 / 100) (0, 0) = fun _ => (1 / 2 : ℚ) := by
  have h := claim_C5_zero_motion_cross_fade (fun _ _ => 1 / 4) (fun _ _ => 3 / 4)
    (fun _ => (0, 0)) (1 / 100, 1 / 100) (0, 0) rfl
    (fun i => by norm_num) (fun i => by norm_num)
  rw [h]
  funext i
  norm_num

end Interp

namespace Cfg

/-- The decimal digit character for `d < 10`. -/
def charOfDigit (d : ℕ) : Char := Char.ofNat (48 + d)

/-- The numeric value of a decimal digit character. -/
def digitVal (c : Char) : ℕ := c.toNat - 48

/-- The decimal numeral of `n`, most significant digit first, as printf's
`%u`/`%d` magnitude part produces it. -/
def printNat (n : ℕ) : List Char :=
  if n = 0 then ['0'] else ((Nat.digits 10 n).map charOfDigit).reverse

/-- Decimal parsing of a digit string, as `strtol`-family parsers
accumulate it. -/
def parseNat (cs : List Char) : ℕ :=
  cs.foldl (fun a c => 10 * a + digitVal c) 0

theorem digitVal_charOfDigit {d : ℕ} (hd : d < 10) : digitVal (charOfDigit d) = d := by
  interval_cases d <;> decide

theorem charOfDigit_toNat {d : ℕ} (hd : d < 10) :
    48 ≤ (charOfDigit d).toNat ∧ (charOfDigit d).toNat ≤ 57 := by
  interval_cases d <;> decide

theorem parseNat_append_single (cs : List Char) (c : Char) :
    parseNat (cs ++ [c]) = 10 * parseNat cs + digitVal c := by
  simp [parseNat, List.foldl_append]

theorem parseNat_eq_ofDigits (l : List ℕ) (hl : ∀ d ∈ l, d < 10) :
    parseNat ((l.map charOfDigit).reverse) = Nat.ofDigits 10 l := by
  induction l with
  | nil => rfl
  | cons d rest ih =>
      rw [List.map_cons, List.reverse_cons, parseNat_append_single,
        ih fun d hd => hl d (List.mem_cons_of_mem _ hd),
        digitVal_charOfDigit (hl d (List.mem_cons_self d rest)), Nat.ofDigits_cons]
      omega

theorem parseNat_printNat (n : ℕ) : parseNat (printNat n) = n := by
  by_cases h : n = 0
  · subst h; decide
  · rw [printNat, if_neg h,
      parseNat_eq_ofDigits _ fun d hd => Nat.digits_lt_base (by norm_num) hd,
      Nat.ofDigits_digits]

theorem printNat_ne_nil (n : ℕ) : printNat n ≠ [] := by
  rw [printNat]
  split
  · simp
  · simp only [ne_eq, List.reverse_eq_nil_iff, List.map_eq_nil_iff]
    exact Nat.digits_ne_nil_iff_ne_zero.mpr (by assumption)

theorem mem_printNat_bounds (n : ℕ) :
    ∀ c ∈ printNat n, 48 ≤ c.toNat ∧ c.toNat ≤ 57 := by
  intro c hc
  rw [printNat] at hc
  split at hc
  · have hc0 : c = '0' := by simpa using hc
    subst hc0; decide
  · rw [List.mem_reverse, List.mem_map] at hc
    obtain ⟨d, hd, rfl⟩ := hc
    exact charOfDigit_toNat (Nat.digits_lt_base (by norm_num) hd)

theorem printNat_length_le {m k : ℕ} (hm : m < 10 ^ k) (hk : 1 ≤ k) :
    (printNat m).length ≤ k := by
  rw [printNat]
  split
  · simpa using hk
  · rw [List.length_reverse, List.length_map]
    by_contra hlen
    push_neg at hlen
    have h0 : m ≠ 0 := by assumption
    have h1 : 10 ^ (Nat.digits 10 m).length ≤ 10 * m :=
      Nat.base_pow_length_digits_le 10 m (by norm_num) h0
    have h2 : 10 ^ (k + 1) ≤ 10 ^ (Nat.digits 10 m).length :=
      Nat.pow_le_pow_right (by norm_num) hlen
    have h3 : 10 * 10 ^ k ≤ 10 * m := by
      have hp : 10 * 10 ^ k = 10 ^ (k + 1) := by ring
      omega
    omega

/-- `%d` of a 32-bit int: an optional minus sign followed by the decimal
magnitude. -/
def printInt (i : ℤ) : List Char :=
  if i < 0 then '-' :: printNat i.natAbs else printNat i.natAbs

/-- Decimal integer parsing as the profile API performs it on the strings
`Save` writes: an optional leading minus sign followed by digits. -/
def parseInt (cs : List Char) : ℤ :=
  if cs.head? = some '-' then -(parseNat cs.tail : ℤ) else (parseNat cs : ℤ)

theorem parseInt_printInt (i : ℤ) : parseInt (printInt i) = i := by
  rw [printInt]
  split
  · rw [parseInt]
    simp only [List.head?_cons, List.tail_cons]
    rw [if_true, parseNat_printNat]
    omega
  · obtain ⟨c, cs', hc⟩ := List.exists_cons_of_ne_nil (printNat_ne_nil i.natAbs)
    have hdig := mem_printNat_bounds i.natAbs c (hc ▸ List.mem_cons_self c cs')
    rw [parseInt, hc]
    have hne : ¬ ((c :: cs').head? = some '-') := by
      simp only [List.head?_cons, Option.some_inj]
      intro hcontra
      subst hcontra
      revert hdig
      decide
    rw [if_neg hne, ← hc, parseNat_printNat]
    omega

/-- Zero-padding to 6 characters, as `%.6f` pads the fractional part. -/
def pad6 (cs : List Char) : List Char :=
  List.replicate (6 - cs.length) '0' ++ cs

/-- `%.6f` formatting idealised over `ℚ`: the value is rounded to
`n = round(q * 10^6)` millionths (the exact tie-breaking of the C library's
binary-float rounding is immaterial to the theorems below) and printed as
sign, integer part, `'.'`, and the 6-digit zero-padded fraction. -/
def printFloat6 (q : ℚ) : List Char :=
  let n : ℤ := round (q * 1000000)
  (if n < 0 then ['-'] else []) ++
    printNat (n.natAbs / 1000000) ++ '.' :: pad6 (printNat (n.natAbs % 1000000))

/-- The magnitude part of `atof` on `digits.digits` strings: integer part
before the first `'.'`, fraction after it, scaled by its length. -/
def parseUnsigned (cs : List Char) : ℚ :=
  let ip := cs.takeWhile fun c => c != '.'
  let rest := cs.dropWhile fun c => c != '.'
  let fp := rest.tail
  (parseNat ip : ℚ) + (parseNat fp : ℚ) / 10 ^ fp.length

/-- `atof` on the strings `printFloat6` produces: optional minus sign, then
the unsigned decimal. -/
def parseFloat (cs : List Char) : ℚ :=
  if cs.head? = some '-' then -(parseUnsigned cs.tail) else parseUnsigned cs

theorem takeWhile_append_stop (p : Char → Bool) (xs : List Char) (y : Char)
    (ys : List Char) (hxs : ∀ x ∈ xs, p x = true) (hy : p y = false) :
    (xs ++ y :: ys).takeWhile p = xs := by
  induction xs with
  | nil => simp [List.takeWhile_cons, hy]
  | cons x rest ih =>
      rw [List.cons_append, List.takeWhile_cons, hxs x (List.mem_cons_self x rest),
        if_pos rfl, ih fun x hx => hxs x (List.mem_cons_of_mem _ hx)]

theorem dropWhile_append_stop (p : Char → Bool) (xs : List Char) (y : Char)
    (ys : List Char) (hxs : ∀ x ∈ xs, p x = true) (hy : p y = false) :
    (xs ++ y :: ys).dropWhile p = y :: ys := by
  induction xs with
  | nil => simp [List.dropWhile_cons, hy]
  | cons x rest ih =>
      rw [List.cons_append, List.dropWhile_cons, hxs x (List.mem_cons_self x rest),
        if_pos rfl, ih fun x hx => hxs x (List.mem_cons_of_mem _ hx)]

theorem parseNat_replicate_zero (k : ℕ) (cs : List Char) :
    parseNat (List.replicate k '0' ++ cs) = parseNat cs := by
  induction k with
  | zero => rfl
  | succ k ih =>
      rw [List.replicate_succ, List.cons_append, parseNat, List.foldl_cons]
      exact ih

theorem not_dot_of_digit {c : Char} (h : 48 ≤ c.toNat ∧ c.toNat ≤ 57) :
    (c != '.') = true := by
  simp only [bne_iff_ne, ne_eq]
  intro hcontra
  subst hcontra
  revert h
  decide

theorem parseUnsigned_printed (a : ℕ) :
    parseUnsigned (printNat (a / 1000000) ++ '.' :: pad6 (printNat (a % 1000000))) =
      (a : ℚ) / 1000000 := by
  have hip : ∀ x ∈ printNat (a / 1000000), (x != '.') = true := fun x hx =>
    not_dot_of_digit (mem_printNat_bounds _ x hx)
  have hdot : ('.' != '.') = false := by decide
  have hlen6 : (pad6 (printNat (a % 1000000))).length = 6 := by
    rw [pad6, List.length_append, List.length_replicate]
    have hlt : a % 1000000 < 10 ^ 6 := by
      have := Nat.mod_lt a (show 0 < 1000000 by norm_num)
      norm_num
      omega
    have := printNat_length_le hlt (by norm_num)
    omega
  rw [parseUnsigned]
  simp only [takeWhile_append_stop _ _ _ _ hip hdot,
    dropWhile_append_stop _ _ _ _ hip hdot, List.tail_cons]
  rw [hlen6, pad6, parseNat_replicate_zero, parseNat_printNat, parseNat_printNat]
  have hsplit : (a : ℚ) = 1000000 * ((a / 1000000 : ℕ) : ℚ) + ((a % 1000000 : ℕ) : ℚ) := by
    exact_mod_cast (Nat.div_add_mod a 1000000).symm
  rw [hsplit]
  ring

theorem parseFloat_printFloat6 (q : ℚ) :
    parseFloat (printFloat6 q) = (round (q * 1000000) : ℚ) / 1000000 := by
  rw [printFloat6]
  by_cases hn : round (q * 1000000) < 0
  · rw [if_pos hn]
    rw [show (['-'] ++ printNat ((round (q * 1000000)).natAbs / 1000000) ++
        '.' :: pad6 (printNat ((round (q * 1000000)).natAbs % 1000000))) =
      '-' :: (printNat ((round (q * 1000000)).natAbs / 1000000) ++
        '.' :: pad6 (printNat ((round (q * 1000000)).natAbs % 1000000))) from rfl]
    rw [parseFloat]
    simp only [List.head?_cons, List.tail_cons]
    rw [if_true, parseUnsigned_printed]
    have hqn : ((round (q * 1000000) : ℤ) : ℚ) < 0 := by exact_mod_cast hn
    have hcast : (((round (q * 1000000)).natAbs : ℕ) : ℚ) =
        -((round (q * 1000000) : ℤ) : ℚ) := by
      push_cast [Int.cast_natAbs]
      exact abs_of_neg hqn
    rw [hcast]
    ring
  · rw [if_neg hn, List.nil_append]
    obtain ⟨c, cs', hc⟩ :=
      List.exists_cons_of_ne_nil (printNat_ne_nil ((round (q * 1000000)).natAbs / 1000000))
    have hdig := mem_printNat_bounds ((round (q * 1000000)).natAbs / 1000000) c
      (hc ▸ List.mem_cons_self c cs')
    rw [parseFloat]
    have hne : ¬ ((printNat ((round (q * 1000000)).natAbs / 1000000) ++
        '.' :: pad6 (printNat ((round (q * 1000000)).natAbs % 1000000))).head? = some '-') := by
      rw [hc, List.cons_append, List.head?_cons]
      simp only [Option.some_inj]
      intro hcontra
      subst hcontra
      revert hdig
      decide
    rw [if_neg hne, parseUnsigned_printed]
    have hqn : 0 ≤ ((round (q * 1000000) : ℤ) : ℚ) := by exact_mod_cast not_lt.mp hn
    have hcast : (((round (q * 1000000)).natAbs : ℕ) : ℚ) =
        ((round (q * 1000000) : ℤ) : ℚ) := by
      push_cast [Int.cast_natAbs]
      exact abs_of_nonneg hqn
    rw [hcast]

/-- The settings file: an association list from (section, key) to the
stored character string.  `WritePrivateProfileStringA` replaces the entry
for a key; prepending the new entry shadows any older one, which is
equivalent for every lookup. -/
def IniFile : Type := List ((String × String) × List Char)

def writeProfileString (f : IniFile) (sec key : String) (v : List Char) : IniFile :=
  ((sec, key), v) :: f

/-- `GetPrivateProfileStringA`-style lookup: the stored string for a key,
if present. -/
def getProfileVal (f : IniFile) (sec key : String) : Option (List Char) :=
  (f.find? fun e => decide (e.1 = (sec, key))).map fun e => e.2

def getProfileString (f : IniFile) (sec key : String) (dflt : List Char) : List Char :=
  (getProfileVal f sec key).getD dflt

/-- `_stricmp(a, b) == 0`: case-insensitive string equality. -/
def striEq (a b : List Char) : Bool :=
  (a.map Char.toLower) == (b.map Char.toLower)

/-- `ConfigManager::WriteBool` (src/utils/config.cpp:112). -/
def WriteBool (f : IniFile) (sec key : String) (v : Bool) : IniFile :=
  writeProfileString f sec key (if v then "true".data else "false".data)

/-- `ConfigManager::WriteInt` (src/utils/config.cpp:100): `%d` of the
value. -/
def WriteInt (f : IniFile) (sec key : String) (v : ℤ) : IniFile :=
  writeProfileString f sec key (printInt v)

/-- `ConfigManager::WriteFloat` (src/utils/config.cpp:106): `%.6f` of the
value. -/
def WriteFloat (f : IniFile) (sec key : String) (v : ℚ) : IniFile :=
  writeProfileString f sec key (printFloat6 v)

/-- `ConfigManager::ReadBool` (src/utils/config.cpp:85): fetch the string
(default's text if absent) and accept "true", "1" or "yes"
case-insensitively. -/
def ReadBool (f : IniFile) (sec key : String) (dflt : Bool) : Bool :=
  let buffer := getProfileString f sec key (if dflt then "true".data else "false".data)
  striEq buffer "true".data || (striEq buffer "1".data || striEq buffer "yes".data)

/-- `ConfigManager::ReadInt` (src/utils/config.cpp:72), i.e.
`GetPrivateProfileIntA`: parse the stored decimal, or the default when the
key is absent. -/
def ReadInt (f : IniFile) (sec key : String) (dflt : ℤ) : ℤ :=
  match getProfileVal f sec key with
  | some v => parseInt v
  | none => dflt

/-- `ConfigManager::ReadFloat` (src/utils/config.cpp:76): fetch the string
(the `%.6f` rendering of the default if absent) and `atof` it. -/
def ReadFloat (f : IniFile) (sec key : String) (dflt : ℚ) : ℚ :=
  parseFloat (getProfileString f sec key (printFloat6 dflt))

/-- `static_cast<int>` of a `uint32_t` value (two's complement). -/
def toSigned32 (u : ℕ) : ℤ :=
  if u < 2147483648 then (u : ℤ) else (u : ℤ) - 4294967296

/-- `static_cast<uint32_t enum>` of an `int` value. -/
def toUnsigned32 (i : ℤ) : ℕ :=
  (i % 4294967296).toNat

/-- `FiveMFrameGen::Config` (include/fivem_framegen.h).  The `Backend` and
`QualityPreset` fields are carried as their underlying `uint32_t` values,
since the C++ enum fields can hold any such value via `static_cast`. -/
structure Config where
  enabled : Bool
  backend : ℕ
  quality : ℕ
  targetFramerate : ℚ
  showOverlay : Bool
  hudLessMode : Bool
  sharpness : ℚ
  deriving DecidableEq

/-- `ConfigManager::Save` (src/utils/config.cpp:54). -/
def Save (c : Config) (f : IniFile) : IniFile :=
  let f1 := WriteBool f "General" "Enabled" c.enabled
  let f2 := WriteInt f1 "General" "Backend" (toSigned32 c.backend)
  let f3 := WriteInt f2 "General" "Quality" (toSigned32 c.quality)
  let f4 := WriteFloat f3 "General" "TargetFramerate" c.targetFramerate
  let f5 := WriteBool f4 "General" "ShowOverlay" c.showOverlay
  let f6 := WriteBool f5 "General" "HudLessMode" c.hudLessMode
  WriteFloat f6 "General" "Sharpness" c.sharpness

/-- `ConfigManager::Load` (src/utils/config.cpp:31), including the
validation block: sharpness clamped into `[0,1]`, and the enum fields reset
to FSR3 / Balanced when their *`int`-cast* exceeds 3 / 2. -/
def Load (f : IniFile) : Config :=
  let enabled := ReadBool f "General" "Enabled" false
  let backend := toUnsigned32 (ReadInt f "General" "Backend" 1)
  let quality := toUnsigned32 (ReadInt f "General" "Quality" 1)
  let targetFramerate := ReadFloat f "General" "TargetFramerate" 60
  let showOverlay := ReadBool f "General" "ShowOverlay" true
  let hudLessMode := ReadBool f "General" "HudLessMode" false
  let sharpness0 := ReadFloat f "General" "Sharpness" (1 / 2)
  let sharpness1 := if sharpness0 < 0 then 0 else sharpness0
  let sharpness2 := if 1 < sharpness1 then 1 else sharpness1
  { enabled := enabled
    backend := if 3 < toSigned32 backend then 1 else backend
    quality := if 2 < toSigned32 quality then 1 else quality
    targetFramerate := targetFramerate
    showOverlay := showOverlay
    hudLessMode := hudLessMode
    sharpness := sharpness2 }

/-- The value `%.6f` round-trips a rational to: the nearest multiple of
`10^-6`. -/
def fix6 (q : ℚ) : ℚ := (round (q * 1000000) : ℚ) / 1000000

theorem getProfileVal_hit (f : IniFile) (sec key : String) (v : List Char) :
    getProfileVal (writeProfileString f sec key v) sec key = some v := by
  rw [getProfileVal, writeProfileString, List.find?_cons_of_pos _ (by simp)]
  rfl

theorem getProfileVal_miss (f : IniFile) (sec key sec2 key2 : String) (v : List Char)
    (h : (sec, key) ≠ (sec2, key2)) :
    getProfileVal (writeProfileString f sec key v) sec2 key2 =
      getProfileVal f sec2 key2 := by
  rw [getProfileVal, writeProfileString, List.find?_cons_of_neg _ (by simp [h]),
    getProfileVal]

theorem toUnsigned32_toSigned32 {u : ℕ} (h : u < 4294967296) :
    toUnsigned32 (toSigned32 u) = u := by
  rw [toSigned32, toUnsigned32]
  split <;> omega

theorem read_saved_enabled (c : Config) (f : IniFile) :
    ReadBool (Save c f) "General" "Enabled" false = c.enabled := by
  rw [ReadBool, getProfileString]
  simp only [Save, WriteBool, WriteInt, WriteFloat]
  rw [getProfileVal_miss, getProfileVal_miss, getProfileVal_miss, getProfileVal_miss,
    getProfileVal_miss, getProfileVal_miss, getProfileVal_hit]
  · cases c.enabled <;> decide
  all_goals decide

theorem read_saved_backend (c : Config) (f : IniFile) :
    ReadInt (Save c f) "General" "Backend" 1 = toSigned32 c.backend := by
  rw [ReadInt]
  simp only [Save, WriteBool, WriteInt, WriteFloat]
  rw [getProfileVal_miss, getProfileVal_miss, getProfileVal_miss, getProfileVal_miss,
    getProfileVal_miss, getProfileVal_hit]
  · simp [parseInt_printInt]
  all_goals decide

theorem read_saved_quality (c : Config) (f : IniFile) :
    ReadInt (Save c f) "General" "Quality" 1 = toSigned32 c.quality := by
  rw [ReadInt]
  simp only [Save, WriteBool, WriteInt, WriteFloat]
  rw [getProfileVal_miss, getProfileVal_miss, getProfileVal_miss, getProfileVal_miss,
    getProfileVal_hit]
  · simp [parseInt_printInt]
  all_goals decide

theorem read_saved_target (c : Config) (f : IniFile) :
    ReadFloat (Save c f) "General" "TargetFramerate" 60 = fix6 c.targetFramerate := by
  rw [ReadFloat, getProfileString]
  simp only [Save, WriteBool, WriteInt, WriteFloat]
  rw [getProfileVal_miss, getProfileVal_miss, getProfileVal_miss, getProfileVal_hit]
  · rw [Option.getD_some, parseFloat_printFloat6, fix6]
  all_goals decide

theorem read_saved_overlay (c : Config) (f : IniFile) :
    ReadBool (Save c f) "General" "ShowOverlay" true = c.showOverlay := by
  rw [ReadBool, getProfileString]
  simp only [Save, WriteBool, WriteInt, WriteFloat]
  rw [getProfileVal_miss, getProfileVal_miss, getProfileVal_hit]
  · cases c.showOverlay <;> decide
  all_goals decide

theorem read_saved_hudless (c : Config) (f : IniFile) :
    ReadBool (Save c f) "General" "HudLessMode" false = c.hudLessMode := by
  rw [ReadBool, getProfileString]
  simp only [Save, WriteBool, WriteInt, WriteFloat]
  rw [getProfileVal_miss, getProfileVal_hit]
  · cases c.hudLessMode <;> decide
  all_goals decide

theorem read_saved_sharpness (c : Config) (f : IniFile) :
    ReadFloat (Save c f) "General" "Sharpness" (1 / 2) = fix6 c.sharpness := by
  rw [ReadFloat, getProfileString]
  simp only [Save, WriteBool, WriteInt, WriteFloat]
  rw [getProfileVal_hit, Option.getD_some, parseFloat_printFloat6, fix6]

/-- The Save-then-Load behaviour the code actually has; shared by the
amended claim theorem and the counterexample. -/
theorem load_save_eq (c : Config) (f : IniFile)
    (hb : c.backend < 4294967296) (hq : c.quality < 4294967296) :
    Load (Save c f) =
      { enabled := c.enabled
        backend := if 3 < toSigned32 c.backend then 1 else c.backend
        quality := if 2 < toSigned32 c.quality then 1 else c.quality
        targetFramerate := fix6 c.targetFramerate
        showOverlay := c.showOverlay
        hudLessMode := c.hudLessMode
        sharpness := if 1 < (if fix6 c.sharpness < 0 then 0 else fix6 c.sharpness) then 1
          else if fix6 c.sharpness < 0 then 0 else fix6 c.sharpness } := by
  simp only [Load]
  rw [read_saved_enabled, read_saved_backend, read_saved_quality, read_saved_target,
    read_saved_overlay, read_saved_hudless, read_saved_sharpness,
    toUnsigned32_toSigned32 hb, toUnsigned32_toSigned32 hq]

/-- The round-trip property exactly as the claim states it: every field
reproduced, except backend values greater than 3 load as FSR3 (1), quality
values greater than 2 load as Balanced (1), and sharpness loads clamped
into `[0,1]`. -/
def claimedRoundTrip (c : Config) (f : IniFile) : Prop :=
  (Load (Save c f)).enabled = c.enabled ∧
  (Load (Save c f)).backend = (if 3 < c.backend then 1 else c.backend) ∧
  (Load (Save c f)).quality = (if 2 < c.quality then 1 else c.quality) ∧
  (Load (Save c f)).targetFramerate = c.targetFramerate ∧
  (Load (Save c f)).showOverlay = c.showOverlay ∧
  (Load (Save c f)).hudLessMode = c.hudLessMode ∧
  (Load (Save c f)).sharpness = min 1 (max 0 c.sharpness)

/-- **C3 counterexample.** The round-trip claim fails at the config
`(enabled, backend = 2^31, quality = 1, 60 fps, overlay, no hudless,
sharpness = 10^-7)`: the backend value `2^31 > 3` is *not* clamped to FSR3
(the validation compares the `int` cast, which is negative), and the
in-range sharpness `10^-7` comes back as `0` (the `%.6f` file format keeps
only 6 fractional digits), not unchanged. -/
theorem claim_C3_counterexample :
    ¬ claimedRoundTrip ⟨true, 2147483648, 1, 60, true, false, 1 / 10000000⟩ [] := by
  intro hcl
  have h := load_save_eq ⟨true, 2147483648, 1, 60, true, false, 1 / 10000000⟩ []
    (by norm_num) (by norm_num)
  rw [claimedRoundTrip] at hcl
  obtain ⟨-, hback, -, -, -, -, -⟩ := hcl
  rw [h] at hback
  simp only at hback
  rw [toSigned32] at hback
  norm_num at hback

/-- **C3 (amended).** Saving then loading a `Config` reproduces `enabled`,
`showOverlay` and `hudLessMode` exactly; reproduces the float fields only
up to rounding to the nearest multiple of `10^-6` (the `%.6f` file format),
with sharpness additionally clamped into `[0,1]`; and clamps `backend` to
FSR3 / `quality` to Balanced only when the *signed 32-bit cast* of the
stored value exceeds 3 / 2 — backend values in `[2^31, 2^32)` cast negative
and are reproduced unchanged. -/
theorem claim_C3_round_trip_amended (c : Config) (f : IniFile)
    (hb : c.backend < 4294967296) (hq : c.quality < 4294967296) :
    Load (Save c f) =
      { enabled := c.enabled
        backend := if 3 < toSigned32 c.backend then 1 else c.backend
        quality := if 2 < toSigned32 c.quality then 1 else c.quality
        targetFramerate := fix6 c.targetFramerate
        showOverlay := c.showOverlay
        hudLessMode := c.hudLessMode
        sharpness := if 1 < (if fix6 c.sharpness < 0 then 0 else fix6 c.sharpness) then 1
          else if fix6 c.sharpness < 0 then 0 else fix6 c.sharpness } :=
  load_save_eq c f hb hq

/-- Witness for the amended C3 theorem: a config with 6-decimal float
fields and small enum values round-trips exactly. -/
theorem claim_C3_round_trip_amended_witness :
    Load (Save ⟨true, 1, 1, 60, true, false, 1 / 2⟩ []) =
      ⟨true, 1, 1, 60, true, false, 1 / 2⟩ := by
  have h := claim_C3_round_trip_amended ⟨true, 1, 1, 60, true, false, 1 / 2⟩ []
    (by norm_num) (by norm_num)
  rw [h]
  have h60 : fix6 (60 : ℚ) = 60 := by
    rw [fix6, show (60 : ℚ) * 1000000 = 60000000 by norm_num, round_ofNat]
    norm_num
  have hhalf : fix6 ((1 : ℚ) / 2) = 1 / 2 := by
    rw [fix6, show (1 : ℚ) / 2 * 1000000 = 500000 by norm_num, round_ofNat]
    norm_num
  simp only [Config.mk.injEq]
  refine ⟨trivial, ?_, ?_, h60, trivial, trivial, ?_⟩
  · norm_num [toSigned32]
  · norm_num [toSigned32]
  · rw [hhalf]
    norm_num

end Cfg
